import Mathlib

/-!
Verification of the Markov chain braid-word engine
(`src/braidgenerator/markovchain.py`).

The engine drives a bounded random walk over seven braid-word moves,
keeping per-trial logs and snapshots.  The `BraidWord` move operations
live in `braidgenerator/braidword.py`, which is not part of the sources
under verification; those operations are modelled from the specification
(each such definition carries a doc comment starting with
`Modelled from the spec:`).  Everything in the `MarkovChain` namespace is
translated directly from `markovchain.py`.

Randomness: the source draws every random number from Python's single
global `random.randrange` source.  This is embedded as an explicit stream
`g : Nat -> Nat` together with a running counter `k`; the draw
`randrange(n)` at counter `k` is `g k % n`, and `k` advances by one.  The
counter is threaded through the whole run in exactly the order the source
makes its draws (move type, then index, then the per-move parameter).
-/

namespace BraidWord

/-- Modelled from the spec: `braidword.py` is not under `src/`.
Section 3 of the spec: `largestGenerator` is "derived, = maximum magnitude
present among elements (0 if empty, by convention)". -/
def largestGenerator (w : List Int) : Nat :=
  (w.map Int.natAbs).foldl max 0

/-- Modelled from the spec: `braidword.py` is not under `src/`.
Section 4.1: Conjugate "cyclically permutes `elements`, moving the element
at `index` to the boundary"; it fails when the index is out of
`[0, length)` or the length is 0.  Success returns the new word, failure
returns `none` (the caller keeps the word unchanged). -/
def conjugate (w : List Int) (i : Nat) : Option (List Int) :=
  if i < w.length ∧ w.length ≠ 0 then some (w.drop i ++ w.take i) else none

/-- Modelled from the spec: `braidword.py` is not under `src/`.
Section 4.1: the read-only companion predicate of Cancel, true when the
two adjacent elements at `index`, `index+1` are additive inverses. -/
def canCancel (w : List Int) (i : Nat) : Bool :=
  decide (i + 1 < w.length) && (w.getD i 0 == -(w.getD (i + 1) 0))

/-- Modelled from the spec: `braidword.py` is not under `src/`.
Section 4.1: Cancel "removes the two adjacent elements at `index`,
`index+1` when they are additive inverses"; it fails when no inverse pair
is at `index` or the removal "would reduce length below 1". -/
def cancel (w : List Int) (i : Nat) : Option (List Int) :=
  if canCancel w i = true ∧ 3 ≤ w.length then
    some (w.take i ++ w.drop (i + 2))
  else none

/-- Modelled from the spec: `braidword.py` is not under `src/`.
Section 4.1: Insert "inserts a generator/inverse pair at `index`,
increasing length by 2" with a caller-supplied generator; it fails when
the index is out of range (the length bound is enforced by the engine). -/
def insert (w : List Int) (i : Nat) (gen : Nat) : Option (List Int) :=
  if i ≤ w.length then
    some (w.take i ++ [(gen : Int), -(gen : Int)] ++ w.drop i)
  else none

/-- Modelled from the spec: `braidword.py` is not under `src/`.
Section 4.1: Transpose "swaps two adjacent elements at `index`, `index+1`
when their magnitudes differ by at least 2"; it fails when the adjacent
pair does not commute or the index is out of range. -/
def transpose (w : List Int) (i : Nat) : Option (List Int) :=
  if i + 1 < w.length ∧
      ((w.getD i 0).natAbs + 2 ≤ (w.getD (i + 1) 0).natAbs ∨
        (w.getD (i + 1) 0).natAbs + 2 ≤ (w.getD i 0).natAbs) then
    some ((w.set i (w.getD (i + 1) 0)).set (i + 1) (w.getD i 0))
  else none

/-- Modelled from the spec: `braidword.py` is not under `src/`.
Section 4.1: Flip "applies the braid relation rewriting three consecutive
elements to an equivalent triple (e.g. `g.h.g -> h.g.h` for
adjacent-magnitude generators) centered at `index`"; it fails when the
relation pattern is not present at `index` or the index is out of range. -/
def flip (w : List Int) (i : Nat) : Option (List Int) :=
  if i + 2 < w.length ∧ w.getD i 0 = w.getD (i + 2) 0 ∧
      ((w.getD i 0).natAbs + 1 = (w.getD (i + 1) 0).natAbs ∨
        (w.getD (i + 1) 0).natAbs + 1 = (w.getD i 0).natAbs) then
    some (w.take i ++ [w.getD (i + 1) 0, w.getD i 0, w.getD (i + 1) 0] ++
      w.drop (i + 3))
  else none

/-- Modelled from the spec: `braidword.py` is not under `src/`.
Section 4.1: Stabilize "appends one new generator of magnitude
`largestGenerator+1` (sign chosen at random) to the end"; the sign draw
comes from the single shared random source (section 5), passed in here as
the value `s` of that draw.  The length/magnitude bounds are enforced by
the engine before this operation is reached, so the operation itself
always succeeds. -/
def stabilize (w : List Int) (s : Nat) : List Int :=
  w ++ [if s = 0 then ((largestGenerator w + 1 : Nat) : Int)
        else -((largestGenerator w + 1 : Nat) : Int)]

/-- Modelled from the spec: `braidword.py` is not under `src/`.
Section 4.1: the read-only companion predicate of Destabilize, true when
the last element's magnitude occurs exactly once in the word. -/
def canDestabilize (w : List Int) : Bool :=
  match w.getLast? with
  | some e => (w.filter (fun x => x.natAbs == e.natAbs)).length == 1
  | none => false

/-- Modelled from the spec: `braidword.py` is not under `src/`.
Section 4.1: Destabilize "removes the last element, only valid when that
element's magnitude occurs exactly once in the word"; it fails when the
magnitude occurs elsewhere or the length "would drop below the minimum
allowed (1)". -/
def destabilize (w : List Int) : Option (List Int) :=
  if canDestabilize w = true ∧ 2 ≤ w.length then some w.dropLast else none

end BraidWord

/-- One record of the random draws made by a run, in the order the source
makes them: the move-type draw, the index draw, and the per-move parameter
draws (generator for Insert, sign for Stabilize). -/
inductive Draw where
  | moveType (v : Nat)
  | index (v : Nat)
  | insertGen (v : Nat)
  | stabSign (v : Nat)
deriving DecidableEq, Repr

/-- True for every draw except a move-type draw that escaped `[0, 7)`. -/
def moveTypeBound : Draw → Bool
  | Draw.moveType v => decide (v < 7)
  | _ => true

/-- A per-trial log: the source builds `log` as a dict from step index to
message, inserting keys in increasing step order.  It is embedded as the
association list of its insertions. -/
abbrev Dict := List (Nat × String)

/-- The Python call `random.randrange(n)` made when the running draw
counter is `k`, with `g` the externally seeded stream: the result is a
value in `[0, n)` determined by the seed. -/
def rr (g : Nat → Nat) (k n : Nat) : Nat := g k % n

/-- The mutable state of `MarkovChain` (`__init__`): the working braid
word `self.braid`, the bounds `self.maxgen` and `self.maxlen`, and the
aggregate `self.braidagg` with its two lists `braidreps` and `logs`
(the dictionary is flattened into its two entries). -/
structure MarkovChain where
  braid : List Int
  maxgen : Int
  maxlen : Int
  braidreps : List (List Int)
  logs : List Dict
deriving DecidableEq, Repr

/-- The state threaded through the iterations of `model`: the working
word, the position `k` of the next random draw in the stream, and the
draws made so far. -/
structure RunSt where
  word : List Int
  k : Nat
  trace : List Draw
deriving DecidableEq, Repr

/-- State of a whole `model` call: the engine state plus the draw counter
and the draw trace. -/
structure ModelOut where
  mc : MarkovChain
  k : Nat
  trace : List Draw
deriving DecidableEq, Repr

namespace MarkovChain

/-- `MarkovChain.log_message` (markovchain.py lines 67-99): builds
`beg = "MoveType: {movetype}, "`, `tmp = "Attempted {name}: "`, then
appends `name + " Succeeded."` or `name + " Failed."` to `tmp` according
to `result`, and returns `beg + tmp`. -/
def log_message (movetype : Int) (name : String) (result : Bool) : String :=
  let beg := "MoveType: " ++ toString movetype ++ ", "
  let tmp := "Attempted " ++ name ++ ": "
  let tmp := if result = true then tmp ++ (name ++ " Succeeded.")
             else tmp ++ (name ++ " Failed.")
  beg ++ tmp

/-- One iteration of the inner loop of `model` (lines 134-207): draw the
move type with `rr(7)`, draw the index with `rr(braid.length())`, then
dispatch on the move type through the `if`/`elif` chain, logging the step.
A failing move leaves the word unchanged (`Option.getD w`); the trailing
`else` is the source's defensive dead branch, which logs nothing. -/
def mstep (g : Nat → Nat) (mg ml : Int) (step : Nat) (st : RunSt)
    (log : Dict) : RunSt × Dict :=
  let w := st.word
  let movetype := rr g st.k 7
  let index := rr g (st.k + 1) w.length
  let k2 := st.k + 2
  let tr2 := st.trace ++ [Draw.moveType movetype, Draw.index index]
  if movetype = 0 then
    let res := BraidWord.conjugate w index
    (⟨res.getD w, k2, tr2⟩,
      log ++ [(step, log_message 0 "conjugate" res.isSome)])
  else if movetype = 1 then
    -- "Do not cancel if braid length is 2: unknot"
    if w.length = 2 ∧ BraidWord.canCancel w index = true then
      (⟨w, k2, tr2⟩,
        log ++ [(step, log_message 1 "cancel" false ++ "Unknot")])
    else
      let res := BraidWord.cancel w index
      (⟨res.getD w, k2, tr2⟩,
        log ++ [(step, log_message 1 "cancel" res.isSome)])
  else if movetype = 2 then
    -- the generator draw is only made when the length guard passes
    if (w.length : Int) ≤ ml - 2 then
      let gen := rr g k2 (BraidWord.largestGenerator w + 1)
      let res := BraidWord.insert w index gen
      (⟨res.getD w, k2 + 1, tr2 ++ [Draw.insertGen gen]⟩,
        log ++ [(step, log_message 2 "insert" res.isSome)])
    else
      (⟨w, k2, tr2⟩, log ++ [(step, log_message 2 "insert" false)])
  else if movetype = 3 then
    let res := BraidWord.transpose w index
    (⟨res.getD w, k2, tr2⟩,
      log ++ [(step, log_message 3 "transpose" res.isSome)])
  else if movetype = 4 then
    let res := BraidWord.flip w index
    (⟨res.getD w, k2, tr2⟩,
      log ++ [(step, log_message 4 "flip" res.isSome)])
  else if movetype = 5 then
    -- stabilize's internal sign draw happens only when both bounds pass
    if (w.length : Int) ≤ ml - 1 ∧
        ((BraidWord.largestGenerator w : Nat) : Int) < mg then
      let s := rr g k2 2
      (⟨BraidWord.stabilize w s, k2 + 1, tr2 ++ [Draw.stabSign s]⟩,
        log ++ [(step, log_message 5 "stabilize" true)])
    else
      (⟨w, k2, tr2⟩, log ++ [(step, log_message 5 "stabilize" false)])
  else if movetype = 6 then
    -- "Do not destabilize if braid length is 1: unknot"
    if w.length = 1 ∧ BraidWord.canDestabilize w = true then
      (⟨w, k2, tr2⟩,
        log ++ [(step, log_message 6 "destabilize" false ++ "Unknot")])
    else
      let res := BraidWord.destabilize w
      (⟨res.getD w, k2, tr2⟩,
        log ++ [(step, log_message 6 "destabilize" res.isSome)])
  else
    -- "should not get to this point"
    (⟨w, k2, tr2⟩, log)

/-- The inner loop of `model` run over an explicit list of step indices. -/
def msteps_run (g : Nat → Nat) (mg ml : Int) (xs : List Nat)
    (p : RunSt × Dict) : RunSt × Dict :=
  xs.foldl (fun q step => mstep g mg ml step q.1 q.2) p

/-- One trial of `model`: `for step in range(msteps)` starting from an
empty log. -/
def mtrial (g : Nat → Nat) (mg ml : Int) (msteps : Nat) (st : RunSt) :
    RunSt × Dict :=
  msteps_run g mg ml (List.range msteps) (st, [])

/-- The body of the outer `for _ in range(num_braidreps)` loop: run one
trial on the working word (`braid = self.braid`, not copied), then append
a snapshot of the word to `braidreps` and the trial's log to `logs`. -/
def trialStep (g : Nat → Nat) (msteps : Nat) (o : ModelOut) : ModelOut :=
  let p := mtrial g o.mc.maxgen o.mc.maxlen msteps ⟨o.mc.braid, o.k, o.trace⟩
  ⟨{ o.mc with
      braid := p.1.word,
      braidreps := o.mc.braidreps ++ [p.1.word],
      logs := o.mc.logs ++ [p.2] },
    p.1.k, p.1.trace⟩

/-- `MarkovChain.model` (lines 101-213), with the random source made
explicit: the stream `g` starts at counter 0 and is shared by every draw
of the whole call, in source order. -/
def model (g : Nat → Nat) (mc : MarkovChain) (num_braidreps msteps : Nat) :
    ModelOut :=
  (List.range num_braidreps).foldl (fun o _ => trialStep g msteps o)
    ⟨mc, 0, []⟩

/-- `MarkovChain.clear_model` (lines 215-225): reassigns `self.braidagg`
to a dictionary with two empty lists. -/
def clear_model (mc : MarkovChain) : MarkovChain :=
  { mc with braidreps := [], logs := [] }

end MarkovChain

/-- The Python runtime values that can reach `new_braidword`: a
`BraidWord` instance, a plain list, or the `MarkovChain` instance itself
(which a bound method call passes implicitly). -/
inductive PyVal where
  | braidWord (w : List Int)
  | pyList (l : List Int)
  | markovChain
deriving DecidableEq, Repr

namespace MarkovChain

/-- `MarkovChain.new_braidword` (lines 227-252) as defined in the source:
its parameter list is `(braidword)` only - the `self` parameter is
missing.  Applying it to a list of positional arguments therefore behaves
as follows: with two or more arguments (any bound call
`mc.new_braidword(x)`) Python raises `TypeError` for the arity mismatch
before the body runs; with a single non-`BraidWord`, non-list argument
the body raises the `ValueError` of line 247; with a single `BraidWord`
or list argument the body executes `self.braid = ...` where `self` is an
unbound name, raising `NameError`.  No call path ever assigns the braid. -/
def new_braidword (args : List PyVal) : Except String Unit :=
  match args with
  | [braidword] =>
    match braidword with
    | PyVal.markovChain =>
        Except.error "ValueError: First argument must be BraidWord or list."
    | _ => Except.error "NameError: name self is not defined"
  | _ =>
      Except.error
        "TypeError: new_braidword() takes 1 positional argument but 2 were given"

/-- The bound method call `mc.new_braidword(x)`: Python passes the
instance as the first positional argument, then `x`. -/
def new_braidword_boundCall (x : PyVal) : Except String Unit :=
  new_braidword [PyVal.markovChain, x]

end MarkovChain

/-!
Heap model for the accessors.

The accessors `aggregate`, `logs` and `braidreps` differ only in how much
of the internal state they copy, which is a statement about object
identity.  Mutable Python objects are modelled as cells of a store: one
store of braid-word element lists (a `BraidWord` snapshot is identified
with the cell holding its `word` list, which is what a caller mutates)
and one store of per-trial log dictionaries.  A cell address is its index
in the store; allocation appends to the store.
-/

/-- Reading the cell at address `a` of store `h` (`d` is a dummy default;
every address used is in range). -/
def readH {α : Type} (d : α) (h : List α) (a : Nat) : α := h.getD a d

/-- Mutating the cell at address `a` in place. -/
def writeH {α : Type} (h : List α) (a : Nat) (v : α) : List α := h.set a v

/-- `copy.deepcopy` applied to a list of cell addresses: every pointed-to
value is copied into a fresh cell, and the fresh addresses are returned.
The fresh cells are appended at the end of the store, so the new
addresses are `h.length, h.length+1, ...`. -/
def deepcopyAll {α : Type} (d : α) (h : List α) (as : List Nat) :
    List α × List Nat :=
  (h ++ as.map (readH d h), List.range' h.length as.length)

/-- The reference content of the engine's aggregate: `braidreps` holds
addresses of braid-word cells, `logs` holds addresses of log-dict cells
(the address lists themselves are the engine's private lists). -/
structure MCRefs where
  braidreps : List Nat
  logs : List Nat
deriving DecidableEq, Repr

/-- All stored addresses are live cells of the two stores. -/
def MCRefs.WF (s : MCRefs) (hw : List (List Int)) (hd : List Dict) : Prop :=
  (∀ a ∈ s.braidreps, a < hw.length) ∧ (∀ a ∈ s.logs, a < hd.length)

/-- The contents of the engine's braidrep snapshots, read off the store. -/
def braidrepsView (hw : List (List Int)) (s : MCRefs) : List (List Int) :=
  s.braidreps.map (readH [] hw)

/-- The contents of the engine's logs, read off the store. -/
def logsView (hd : List Dict) (s : MCRefs) : List Dict :=
  s.logs.map (readH [] hd)

namespace MarkovChain

/-- `MarkovChain.aggregate` (lines 254-261): `return deepcopy(self.braidagg)`.
Both address lists are deep-copied: every braid-word cell and every
log-dict cell reachable from the aggregate is copied into a fresh cell.
Returns the two stores after allocation and the fresh address lists
(`Acc` suffix because the structure field `braidreps` occupies the plain
accessor names). -/
def aggregateAcc (hw : List (List Int)) (hd : List Dict) (s : MCRefs) :
    (List (List Int) × List Dict) × (List Nat × List Nat) :=
  (((deepcopyAll [] hw s.braidreps).1, (deepcopyAll [] hd s.logs).1),
    ((deepcopyAll [] hw s.braidreps).2, (deepcopyAll [] hd s.logs).2))

/-- `MarkovChain.logs` (lines 263-273): `return deepcopy(self.braidagg['logs'])`. -/
def logsAcc (hd : List Dict) (s : MCRefs) : List Dict × List Nat :=
  deepcopyAll [] hd s.logs

/-- `MarkovChain.braidreps` (lines 275-303):
`isos = (self.braidagg['braidreps']).copy()` is a shallow copy - a fresh
outer list holding the same `BraidWord` objects; with `as_word=True` the
returned `[i.word for i in isos]` holds the very element lists of those
stored objects.  Either way the returned entries are the engine's own
cell addresses, with no allocation. -/
def braidrepsAcc (s : MCRefs) (as_word : Bool) : List Nat :=
  s.braidreps

end MarkovChain

/-- Claim C9: for every move type code, move name, and boolean result, the
log message produced for a non-guarded step equals exactly
`"MoveType: {moveType}, Attempted {moveName}: {moveName} Succeeded."` on
success and `"MoveType: {moveType}, Attempted {moveName}: {moveName}
Failed."` on failure. -/
theorem log_message_format (movetype : Int) (name : String) (result : Bool) :
    MarkovChain.log_message movetype name result =
      "MoveType: " ++ toString movetype ++ ", Attempted " ++ name ++ ": " ++
        name ++ (if result then " Succeeded." else " Failed.") := by
  cases result <;>
    simp only [MarkovChain.log_message, if_true, if_false, Bool.false_eq_true,
      String.append_assoc, if_pos, if_neg] <;>
    rw [← String.append_assoc ", " "Attempted "] <;> rfl

/-- Claim C8: for every engine state, `clear_model()` leaves the aggregate
equal to `{braidreps: [], logs: []}` while the working word, `maxgen`, and
`maxlen` are unchanged. -/
theorem clear_model_resets (mc : MarkovChain) :
    (MarkovChain.clear_model mc).braidreps = [] ∧
    (MarkovChain.clear_model mc).logs = [] ∧
    (MarkovChain.clear_model mc).braid = mc.braid ∧
    (MarkovChain.clear_model mc).maxgen = mc.maxgen ∧
    (MarkovChain.clear_model mc).maxlen = mc.maxlen := by
  exact ⟨rfl, rfl, rfl, rfl, rfl⟩

/-- Claim C2 (code bug evidence): the source defines `new_braidword`
without a `self` parameter, so every bound call - in particular with a
valid list or `BraidWord` argument - raises instead of replacing the
working word: the two positional arguments of `mc.new_braidword(x)` do
not fit the one-parameter signature. -/
theorem new_braidword_raises :
    MarkovChain.new_braidword_boundCall (PyVal.pyList [1, 2]) =
      Except.error
        "TypeError: new_braidword() takes 1 positional argument but 2 were given" ∧
    MarkovChain.new_braidword_boundCall (PyVal.braidWord [1, 2]) =
      Except.error
        "TypeError: new_braidword() takes 1 positional argument but 2 were given" ∧
    (∀ x : PyVal, ∃ e : String,
      MarkovChain.new_braidword_boundCall x = Except.error e) := by
  refine ⟨rfl, rfl, fun x => ?_⟩
  exact ⟨_, rfl⟩

/-- Every branch of one model iteration advances the draw counter by at
least the two draws (move type and index) that every iteration makes. -/
theorem MarkovChain.mstep_k_lb (g : Nat → Nat) (mg ml : Int) (step : Nat)
    (st : RunSt) (log : Dict) :
    st.k + 2 ≤ (MarkovChain.mstep g mg ml step st log).1.k := by
  simp only [MarkovChain.mstep]
  repeat' split
  all_goals simp

/-- Every model iteration appends exactly one log entry, keyed by its own
step index: the defensive dead branch would append none, but it is only
reached when the move-type draw escapes `[0, 7)`, which `% 7` forbids. -/
theorem MarkovChain.mstep_keys (g : Nat → Nat) (mg ml : Int) (step : Nat)
    (st : RunSt) (log : Dict) :
    ((MarkovChain.mstep g mg ml step st log).2).map Prod.fst =
      log.map Prod.fst ++ [step] := by
  have h7 : g st.k % 7 < 7 := Nat.mod_lt _ (by norm_num)
  simp only [MarkovChain.mstep, rr]
  repeat' split
  all_goals simp_all
  omega

/-- The move-type draw `% 7` always satisfies the move-type bound. -/
theorem moveTypeBound_mod (g : Nat → Nat) (k : Nat) :
    moveTypeBound (Draw.moveType (g k % 7)) = true := by
  simp only [moveTypeBound, decide_eq_true_eq]
  exact Nat.mod_lt _ (by norm_num)

/-- Draws recorded by one iteration on top of the prior trace are sound:
any move-type entry among them carries a value below 7. -/
theorem MarkovChain.mstep_trace_ok (g : Nat → Nat) (mg ml : Int)
    (step : Nat) (st : RunSt) (log : Dict) :
    ∀ d ∈ (MarkovChain.mstep g mg ml step st log).1.trace,
      d ∈ st.trace ∨ moveTypeBound d = true := by
  intro d hd
  simp only [MarkovChain.mstep, rr] at hd
  repeat' split at hd
  all_goals simp only [List.append_assoc, List.mem_append, List.mem_cons,
    List.not_mem_nil, or_false] at hd
  all_goals casesm* _ ∨ _
  all_goals try exact Or.inl (by assumption)
  all_goals subst_vars
  all_goals exact Or.inr (by first | exact moveTypeBound_mod g st.k | rfl)

/-- Claim C4: in every model iteration, if the move drawn is Cancel (code
1) while the working word has length 2 and `canCancel(index)` holds, or
the move drawn is Destabilize (code 6) while the working word has length
1 and `canDestabilize()` holds, then the mutation is skipped: the word is
unchanged at the end of the step and the log entry for that step records
the failed attempt with the `Unknot` annotation appended. -/
theorem unknot_guards (g : Nat → Nat) (mg ml : Int) (step : Nat)
    (st : RunSt) (log : Dict) :
    (rr g st.k 7 = 1 → st.word.length = 2 →
      BraidWord.canCancel st.word (rr g (st.k + 1) st.word.length) = true →
      (MarkovChain.mstep g mg ml step st log).1.word = st.word ∧
      (MarkovChain.mstep g mg ml step st log).2 =
        log ++ [(step, MarkovChain.log_message 1 "cancel" false ++ "Unknot")]) ∧
    (rr g st.k 7 = 6 → st.word.length = 1 →
      BraidWord.canDestabilize st.word = true →
      (MarkovChain.mstep g mg ml step st log).1.word = st.word ∧
      (MarkovChain.mstep g mg ml step st log).2 =
        log ++ [(step, MarkovChain.log_message 6 "destabilize" false ++ "Unknot")]) := by
  constructor
  · intro hmv hl hc
    simp only [rr] at hmv hc
    rw [hl] at hc
    simp only [MarkovChain.mstep, rr]
    rw [hmv]
    simp [hl, hc]
  · intro hmv hl hc
    simp only [rr] at hmv
    simp only [MarkovChain.mstep, rr]
    rw [hmv]
    simp [hl, hc]

/-- Witness for C4: a length-2 cancellable word under move-type draw 1,
and a length-1 destabilizable word under move-type draw 6. -/
theorem unknot_guards_witness :
    ((MarkovChain.mstep (fun i => if i = 0 then 1 else 0) 9 10 0
        (RunSt.mk [1, -1] 0 []) []).1.word = [1, -1] ∧
      (MarkovChain.mstep (fun i => if i = 0 then 1 else 0) 9 10 0
        (RunSt.mk [1, -1] 0 []) []).2 =
        [] ++ [(0, MarkovChain.log_message 1 "cancel" false ++ "Unknot")]) ∧
    ((MarkovChain.mstep (fun _ => 6) 9 10 0 (RunSt.mk [2] 0 []) []).1.word
        = [2] ∧
      (MarkovChain.mstep (fun _ => 6) 9 10 0 (RunSt.mk [2] 0 []) []).2 =
        [] ++ [(0, MarkovChain.log_message 6 "destabilize" false ++ "Unknot")]) :=
  ⟨(unknot_guards (fun i => if i = 0 then 1 else 0) 9 10 0
      (RunSt.mk [1, -1] 0 []) []).1 (by decide) (by decide) (by decide),
    (unknot_guards (fun _ => 6) 9 10 0 (RunSt.mk [2] 0 []) []).2
      (by decide) (by decide) (by decide)⟩

/-- Claim C6: the Stabilize step (move-type draw 5) fails, with the word
left unchanged and no sign draw made, whenever the word's length exceeds
`maxlen - 1` or the appended generator's magnitude `largestGenerator + 1`
would exceed `maxgen`; the move itself is attempted (the word is extended
and the sign draw consumed) only when both bounds permit it. -/
theorem stabilize_bounds_guard (g : Nat → Nat) (mg ml : Int) (step : Nat)
    (st : RunSt) (log : Dict) (hmv : rr g st.k 7 = 5) :
    (¬ ((st.word.length : Int) ≤ ml - 1 ∧
        (BraidWord.largestGenerator st.word : Int) < mg) →
      (MarkovChain.mstep g mg ml step st log).1.word = st.word ∧
      (MarkovChain.mstep g mg ml step st log).2 =
        log ++ [(step, MarkovChain.log_message 5 "stabilize" false)] ∧
      (MarkovChain.mstep g mg ml step st log).1.trace = st.trace ++
        [Draw.moveType 5, Draw.index (rr g (st.k + 1) st.word.length)]) ∧
    (((st.word.length : Int) ≤ ml - 1 ∧
        (BraidWord.largestGenerator st.word : Int) < mg) →
      (MarkovChain.mstep g mg ml step st log).1.word =
        BraidWord.stabilize st.word (rr g (st.k + 2) 2) ∧
      (MarkovChain.mstep g mg ml step st log).2 =
        log ++ [(step, MarkovChain.log_message 5 "stabilize" true)] ∧
      (MarkovChain.mstep g mg ml step st log).1.trace = st.trace ++
        [Draw.moveType 5, Draw.index (rr g (st.k + 1) st.word.length),
          Draw.stabSign (rr g (st.k + 2) 2)]) := by
  simp only [rr] at hmv
  constructor
  · intro hb
    simp only [MarkovChain.mstep, rr]
    rw [hmv]
    simp [hb]
  · intro hb
    simp only [MarkovChain.mstep, rr]
    rw [hmv]
    simp [hb]

/-- Witness for C6: with `maxlen = 1` a one-element word violates the
length bound, so the draw-5 step fails and leaves the word alone. -/
theorem stabilize_bounds_guard_witness :
    (MarkovChain.mstep (fun _ => 5) 9 1 0 (RunSt.mk [1] 0 []) []).1.word
        = [1] ∧
    (MarkovChain.mstep (fun _ => 5) 9 1 0 (RunSt.mk [1] 0 []) []).2 =
      [] ++ [(0, MarkovChain.log_message 5 "stabilize" false)] ∧
    (MarkovChain.mstep (fun _ => 5) 9 1 0 (RunSt.mk [1] 0 []) []).1.trace =
      [] ++ [Draw.moveType 5, Draw.index (rr (fun _ => 5) 1 1)] :=
  (stabilize_bounds_guard (fun _ => 5) 9 1 0 (RunSt.mk [1] 0 []) []
    (by decide)).1 (by decide)

/-- Claim C3, counterexample: with a stream whose draws are move-type 2,
index 0, generator 0, a one-step run passes the generator value 0 to
`insert` - the inserted pair is `[0, 0]` and the working word becomes
`[0, 0, 1]`.  The generator draw is `randrange(largestGenerator + 1)`,
whose range includes 0, not the claimed `[1, largestGenerator + 1]`. -/
theorem insert_zero_generator_cx :
    (MarkovChain.model (fun i => if i = 0 then 2 else 0)
        (MarkovChain.mk [1] 9 10 [] []) 1 1).trace =
      [Draw.moveType 2, Draw.index 0, Draw.insertGen 0] ∧
    (MarkovChain.model (fun i => if i = 0 then 2 else 0)
        (MarkovChain.mk [1] 9 10 [] []) 1 1).mc.braid = [0, 0, 1] := by
  constructor <;> decide

/-- Claim C3, amended: in every model iteration that dispatches to the
Insert move with its length guard satisfied, the generator parameter
passed to `insert` is `randrange(largestGenerator + 1)`, i.e. it is drawn
from the integer range `[0, largestGenerator]`; in particular it never
exceeds `largestGenerator`, but it can be 0. -/
theorem insert_generator_range (g : Nat → Nat) (mg ml : Int) (step : Nat)
    (st : RunSt) (log : Dict) (hmv : rr g st.k 7 = 2)
    (hg : (st.word.length : Int) ≤ ml - 2) :
    (MarkovChain.mstep g mg ml step st log).1.trace = st.trace ++
      [Draw.moveType 2, Draw.index (rr g (st.k + 1) st.word.length),
        Draw.insertGen
          (rr g (st.k + 2) (BraidWord.largestGenerator st.word + 1))] ∧
    rr g (st.k + 2) (BraidWord.largestGenerator st.word + 1) ≤
      BraidWord.largestGenerator st.word := by
  constructor
  · simp only [rr] at hmv
    simp only [MarkovChain.mstep, rr]
    rw [hmv]
    simp [hg]
  · simp only [rr]
    exact Nat.lt_succ_iff.mp (Nat.mod_lt _ (Nat.succ_pos _))

/-- Witness for the amended C3: the concrete run of the counterexample
satisfies both hypotheses, and its generator draw is 0. -/
theorem insert_generator_range_witness :
    (MarkovChain.mstep (fun i => if i = 0 then 2 else 0) 9 10 0
        (RunSt.mk [1] 0 []) []).1.trace =
      [] ++ [Draw.moveType 2,
        Draw.index (rr (fun i => if i = 0 then 2 else 0) 1 1),
        Draw.insertGen (rr (fun i => if i = 0 then 2 else 0) 2
          (BraidWord.largestGenerator [1] + 1))] ∧
    rr (fun i => if i = 0 then 2 else 0) 2
        (BraidWord.largestGenerator [1] + 1) ≤
      BraidWord.largestGenerator [1] :=
  insert_generator_range (fun i => if i = 0 then 2 else 0) 9 10 0
    (RunSt.mk [1] 0 []) [] (by decide) (by decide)

/-- Unfolding one step of the inner loop. -/
theorem MarkovChain.msteps_run_cons (g : Nat → Nat) (mg ml : Int)
    (x : Nat) (xs : List Nat) (p : RunSt × Dict) :
    MarkovChain.msteps_run g mg ml (x :: xs) p =
      MarkovChain.msteps_run g mg ml xs
        (MarkovChain.mstep g mg ml x p.1 p.2) := rfl

/-- Keys accumulated by the inner loop: one per executed step index, in
order. -/
theorem MarkovChain.msteps_run_keys (g : Nat → Nat) (mg ml : Int)
    (xs : List Nat) :
    ∀ p : RunSt × Dict,
      ((MarkovChain.msteps_run g mg ml xs p).2).map Prod.fst =
        p.2.map Prod.fst ++ xs := by
  induction xs with
  | nil => intro p; simp [MarkovChain.msteps_run]
  | cons x xs ih =>
    intro p
    rw [MarkovChain.msteps_run_cons, ih, MarkovChain.mstep_keys]
    simp

/-- The inner loop only ever adds in-bound move-type draws to the trace. -/
theorem MarkovChain.msteps_run_trace_ok (g : Nat → Nat) (mg ml : Int)
    (xs : List Nat) :
    ∀ p : RunSt × Dict,
      ∀ d ∈ (MarkovChain.msteps_run g mg ml xs p).1.trace,
        d ∈ p.1.trace ∨ moveTypeBound d = true := by
  induction xs with
  | nil => intro p d hd; exact Or.inl hd
  | cons x xs ih =>
    intro p d hd
    rw [MarkovChain.msteps_run_cons] at hd
    rcases ih _ d hd with h1 | h1
    · exact MarkovChain.mstep_trace_ok g mg ml x p.1 p.2 d h1
    · exact Or.inr h1

/-- The draw counter never decreases across the inner loop. -/
theorem MarkovChain.msteps_run_k_mono (g : Nat → Nat) (mg ml : Int)
    (xs : List Nat) :
    ∀ p : RunSt × Dict,
      p.1.k ≤ (MarkovChain.msteps_run g mg ml xs p).1.k := by
  induction xs with
  | nil => intro p; exact le_refl _
  | cons x xs ih =>
    intro p
    rw [MarkovChain.msteps_run_cons]
    refine le_trans ?_ (ih _)
    have := MarkovChain.mstep_k_lb g mg ml x p.1 p.2
    omega

/-- A whole trial's log has keys exactly `0, 1, ..., msteps-1` in order. -/
theorem MarkovChain.mtrial_keys (g : Nat → Nat) (mg ml : Int)
    (msteps : Nat) (st : RunSt) :
    ((MarkovChain.mtrial g mg ml msteps st).2).map Prod.fst =
      List.range msteps := by
  have h := MarkovChain.msteps_run_keys g mg ml (List.range msteps) (st, [])
  simpa [MarkovChain.mtrial] using h

/-- The outer loop of `model` is the `num`-fold iterate of `trialStep`. -/
theorem MarkovChain.model_eq_iterate (g : Nat → Nat) (msteps : Nat) :
    ∀ (n : Nat) (o : ModelOut),
      (List.range n).foldl (fun o2 _ => MarkovChain.trialStep g msteps o2) o =
        (MarkovChain.trialStep g msteps)^[n] o := by
  intro n
  induction n with
  | zero => intro o; rfl
  | succ n ih =>
    intro o
    rw [List.range_succ, List.foldl_append, Function.iterate_succ_apply', ih]
    rfl

/-- `model` expressed through the iterate form. -/
theorem MarkovChain.model_eq (g : Nat → Nat) (mc : MarkovChain)
    (num msteps : Nat) :
    MarkovChain.model g mc num msteps =
      (MarkovChain.trialStep g msteps)^[num] (ModelOut.mk mc 0 []) :=
  MarkovChain.model_eq_iterate g msteps num (ModelOut.mk mc 0 [])

/-- What one trial appends: a snapshot of the word after the trial and the
trial's log, with the bounds untouched. -/
theorem MarkovChain.trialStep_spec (g : Nat → Nat) (msteps : Nat)
    (o : ModelOut) :
    (MarkovChain.trialStep g msteps o).mc.maxgen = o.mc.maxgen ∧
    (MarkovChain.trialStep g msteps o).mc.maxlen = o.mc.maxlen ∧
    (MarkovChain.trialStep g msteps o).mc.braidreps = o.mc.braidreps ++
      [(MarkovChain.mtrial g o.mc.maxgen o.mc.maxlen msteps
        (RunSt.mk o.mc.braid o.k o.trace)).1.word] ∧
    (MarkovChain.trialStep g msteps o).mc.logs = o.mc.logs ++
      [(MarkovChain.mtrial g o.mc.maxgen o.mc.maxlen msteps
        (RunSt.mk o.mc.braid o.k o.trace)).2] :=
  ⟨rfl, rfl, rfl, rfl⟩

/-- Iterating trials appends exactly one snapshot and one log per trial,
and every appended log has keys exactly `List.range msteps`. -/
theorem MarkovChain.iterate_trials_spec (g : Nat → Nat) (msteps : Nat) :
    ∀ (n : Nat) (o : ModelOut),
      ∃ rs ls,
        ((MarkovChain.trialStep g msteps)^[n] o).mc.braidreps =
          o.mc.braidreps ++ rs ∧
        ((MarkovChain.trialStep g msteps)^[n] o).mc.logs =
          o.mc.logs ++ ls ∧
        rs.length = n ∧ ls.length = n ∧
        ∀ L ∈ ls, L.map Prod.fst = List.range msteps := by
  intro n
  induction n with
  | zero =>
    intro o
    exact ⟨[], [], by simp, by simp, rfl, rfl, by simp⟩
  | succ n ih =>
    intro o
    rw [Function.iterate_succ_apply]
    obtain ⟨rs, ls, h1, h2, h3, h4, h5⟩ := ih (MarkovChain.trialStep g msteps o)
    refine ⟨(MarkovChain.mtrial g o.mc.maxgen o.mc.maxlen msteps
        (RunSt.mk o.mc.braid o.k o.trace)).1.word :: rs,
      (MarkovChain.mtrial g o.mc.maxgen o.mc.maxlen msteps
        (RunSt.mk o.mc.braid o.k o.trace)).2 :: ls,
      ?_, ?_, by simp [h3], by simp [h4], ?_⟩
    · rw [h1, (MarkovChain.trialStep_spec g msteps o).2.2.1]
      simp
    · rw [h2, (MarkovChain.trialStep_spec g msteps o).2.2.2]
      simp
    · intro L hL
      rcases List.mem_cons.mp hL with h | h
      · subst h
        exact MarkovChain.mtrial_keys g o.mc.maxgen o.mc.maxlen msteps
          (RunSt.mk o.mc.braid o.k o.trace)
      · exact h5 L h

/-- Iterating trials only ever adds in-bound move-type draws. -/
theorem MarkovChain.iterate_trials_trace_ok (g : Nat → Nat) (msteps : Nat) :
    ∀ (n : Nat) (o : ModelOut),
      ∀ d ∈ ((MarkovChain.trialStep g msteps)^[n] o).trace,
        d ∈ o.trace ∨ moveTypeBound d = true := by
  intro n
  induction n with
  | zero => intro o d hd; exact Or.inl hd
  | succ n ih =>
    intro o d hd
    rw [Function.iterate_succ_apply] at hd
    rcases ih _ d hd with h1 | h1
    · exact MarkovChain.msteps_run_trace_ok g o.mc.maxgen o.mc.maxlen
        (List.range msteps) (RunSt.mk o.mc.braid o.k o.trace, []) d h1
    · exact Or.inr h1

/-- Claim C5: for every prior aggregate state and all non-negative `N`
and `M`, `model(num_braidreps := N, msteps := M)` appends exactly `N`
entries to `braidreps` and exactly `N` entries to `logs` (so equal prior
lengths stay equal, `logs[i]` being the log of the trial that produced
`braidreps[i]`), and every appended log has at most `M` entries whose keys
form a subset of `[0, M)`.  The hypothesis `1 ≤ length` is the engine's
word invariant, under which `randrange(braid.length())` is well defined. -/
theorem model_aggregate_shape (g : Nat → Nat) (mc : MarkovChain)
    (N M : Nat) (hword : 1 ≤ mc.braid.length) :
    ∃ rs ls,
      (MarkovChain.model g mc N M).mc.braidreps = mc.braidreps ++ rs ∧
      (MarkovChain.model g mc N M).mc.logs = mc.logs ++ ls ∧
      rs.length = N ∧ ls.length = N ∧
      (mc.braidreps.length = mc.logs.length →
        (MarkovChain.model g mc N M).mc.braidreps.length =
          (MarkovChain.model g mc N M).mc.logs.length) ∧
      ∀ L ∈ ls, L.length ≤ M ∧ ∀ p ∈ L, p.1 < M := by
  rw [MarkovChain.model_eq]
  obtain ⟨rs, ls, h1, h2, h3, h4, h5⟩ :=
    MarkovChain.iterate_trials_spec g M N (ModelOut.mk mc 0 [])
  refine ⟨rs, ls, h1, h2, h3, h4, ?_, ?_⟩
  · intro he
    rw [h1, h2]
    simp [h3, h4, he]
  · intro L hL
    have hk := h5 L hL
    constructor
    · have hlen := congrArg List.length hk
      simp only [List.length_map, List.length_range] at hlen
      exact hlen.le
    · intro p hp
      have hmem : p.1 ∈ L.map Prod.fst := List.mem_map_of_mem _ hp
      rw [hk] at hmem
      exact List.mem_range.mp hmem

/-- Witness for C5: a one-trial, one-step run from the word `[1]`. -/
theorem model_aggregate_shape_witness :
    1 ≤ (MarkovChain.mk [1] 9 10 [] []).braid.length ∧
    ∃ rs ls,
      (MarkovChain.model (fun _ => 0)
        (MarkovChain.mk [1] 9 10 [] []) 1 1).mc.braidreps =
        (MarkovChain.mk [1] 9 10 [] []).braidreps ++ rs ∧
      (MarkovChain.model (fun _ => 0)
        (MarkovChain.mk [1] 9 10 [] []) 1 1).mc.logs =
        (MarkovChain.mk [1] 9 10 [] []).logs ++ ls ∧
      rs.length = 1 ∧ ls.length = 1 ∧
      ((MarkovChain.mk [1] 9 10 [] []).braidreps.length =
          (MarkovChain.mk [1] 9 10 [] []).logs.length →
        (MarkovChain.model (fun _ => 0)
          (MarkovChain.mk [1] 9 10 [] []) 1 1).mc.braidreps.length =
          (MarkovChain.model (fun _ => 0)
            (MarkovChain.mk [1] 9 10 [] []) 1 1).mc.logs.length) ∧
      ∀ L ∈ ls, L.length ≤ 1 ∧ ∀ p ∈ L, p.1 < 1 :=
  ⟨by decide,
    model_aggregate_shape (fun _ => 0) (MarkovChain.mk [1] 9 10 [] []) 1 1
      (by decide)⟩

/-- Claim C7: in every model iteration the move-type draw lies in
`[0, 6]` (every move-type entry of the run's draw trace is below 7), so
the defensive no-entry branch is unreachable and every appended log maps
each step index in `[0, msteps)` to exactly one entry: its key list is
exactly `List.range msteps`. -/
theorem model_movetype_dense (g : Nat → Nat) (mc : MarkovChain)
    (N M : Nat) (hword : 1 ≤ mc.braid.length) :
    (∀ d ∈ (MarkovChain.model g mc N M).trace, moveTypeBound d = true) ∧
    ∃ ls, (MarkovChain.model g mc N M).mc.logs = mc.logs ++ ls ∧
      ls.length = N ∧ ∀ L ∈ ls, L.map Prod.fst = List.range M := by
  constructor
  · intro d hd
    rw [MarkovChain.model_eq] at hd
    rcases MarkovChain.iterate_trials_trace_ok g M N (ModelOut.mk mc 0 [])
        d hd with h | h
    · exact absurd h (List.not_mem_nil d)
    · exact h
  · rw [MarkovChain.model_eq]
    obtain ⟨rs, ls, h1, h2, h3, h4, h5⟩ :=
      MarkovChain.iterate_trials_spec g M N (ModelOut.mk mc 0 [])
    exact ⟨ls, h2, h4, h5⟩

/-- Witness for C7: a two-step, one-trial run from the word `[1]`. -/
theorem model_movetype_dense_witness :
    1 ≤ (MarkovChain.mk [1] 9 10 [] []).braid.length ∧
    ((∀ d ∈ (MarkovChain.model (fun i => i)
        (MarkovChain.mk [1] 9 10 [] []) 1 2).trace,
      moveTypeBound d = true) ∧
    ∃ ls, (MarkovChain.model (fun i => i)
        (MarkovChain.mk [1] 9 10 [] []) 1 2).mc.logs =
        (MarkovChain.mk [1] 9 10 [] []).logs ++ ls ∧
      ls.length = 1 ∧ ∀ L ∈ ls, L.map Prod.fst = List.range 2) :=
  ⟨by decide,
    model_movetype_dense (fun i => i) (MarkovChain.mk [1] 9 10 [] []) 1 2
      (by decide)⟩

/-- If two streams agree on the draws one iteration actually consumes
(the counter window `[st.k, k')` of that iteration), the iteration
produces identical results under both streams. -/
theorem MarkovChain.mstep_agree (g1 g2 : Nat → Nat) (mg ml : Int)
    (step : Nat) (st : RunSt) (log : Dict)
    (h : ∀ i, st.k ≤ i → i < (MarkovChain.mstep g1 mg ml step st log).1.k →
      g1 i = g2 i) :
    MarkovChain.mstep g1 mg ml step st log =
      MarkovChain.mstep g2 mg ml step st log := by
  have hlb := MarkovChain.mstep_k_lb g1 mg ml step st log
  have hk : g1 st.k = g2 st.k := h st.k (le_refl _) (by omega)
  have hk1 : g1 (st.k + 1) = g2 (st.k + 1) := h (st.k + 1) (by omega) (by omega)
  by_cases h2 : g1 st.k % 7 = 2
  · by_cases hg : (st.word.length : Int) ≤ ml - 2
    · have hout : (MarkovChain.mstep g1 mg ml step st log).1.k = st.k + 3 := by
        simp only [MarkovChain.mstep, rr]
        rw [h2]
        simp [hg]
      have hk2 : g1 (st.k + 2) = g2 (st.k + 2) :=
        h (st.k + 2) (by omega) (by omega)
      simp only [MarkovChain.mstep, rr]
      rw [← hk, ← hk1, ← hk2]
    · simp only [MarkovChain.mstep, rr]
      rw [← hk, ← hk1]
      simp [h2, hg]
  · by_cases h5 : g1 st.k % 7 = 5
    · by_cases hg : (st.word.length : Int) ≤ ml - 1 ∧
          (BraidWord.largestGenerator st.word : Int) < mg
      · have hout : (MarkovChain.mstep g1 mg ml step st log).1.k = st.k + 3 := by
          simp only [MarkovChain.mstep, rr]
          rw [h5]
          simp [hg]
        have hk2 : g1 (st.k + 2) = g2 (st.k + 2) :=
          h (st.k + 2) (by omega) (by omega)
        simp only [MarkovChain.mstep, rr]
        rw [← hk, ← hk1, ← hk2]
      · simp only [MarkovChain.mstep, rr]
        rw [← hk, ← hk1]
        simp [h2, h5, hg]
    · simp only [MarkovChain.mstep, rr]
      rw [← hk, ← hk1]
      simp [h2, h5]

/-- Stream agreement on the consumed window extends through the inner
loop. -/
theorem MarkovChain.msteps_run_agree (g1 g2 : Nat → Nat) (mg ml : Int)
    (xs : List Nat) :
    ∀ p : RunSt × Dict,
      (∀ i, p.1.k ≤ i → i < (MarkovChain.msteps_run g1 mg ml xs p).1.k →
        g1 i = g2 i) →
      MarkovChain.msteps_run g1 mg ml xs p =
        MarkovChain.msteps_run g2 mg ml xs p := by
  induction xs with
  | nil => intro p h; rfl
  | cons x xs ih =>
    intro p h
    have hmono := MarkovChain.msteps_run_k_mono g1 mg ml xs
      (MarkovChain.mstep g1 mg ml x p.1 p.2)
    have hlb := MarkovChain.mstep_k_lb g1 mg ml x p.1 p.2
    have hfull : (MarkovChain.msteps_run g1 mg ml (x :: xs) p).1.k =
        (MarkovChain.msteps_run g1 mg ml xs
          (MarkovChain.mstep g1 mg ml x p.1 p.2)).1.k := by
      rw [MarkovChain.msteps_run_cons]
    have hstep : MarkovChain.mstep g1 mg ml x p.1 p.2 =
        MarkovChain.mstep g2 mg ml x p.1 p.2 := by
      apply MarkovChain.mstep_agree
      intro i hi1 hi2
      exact h i hi1 (by rw [hfull]; omega)
    rw [MarkovChain.msteps_run_cons, MarkovChain.msteps_run_cons, ← hstep]
    apply ih
    intro i hi1 hi2
    apply h i (le_trans (by omega) hi1)
    rw [hfull]
    exact hi2

/-- The draw counter never decreases across one trial. -/
theorem MarkovChain.trialStep_k_mono (g : Nat → Nat) (msteps : Nat)
    (o : ModelOut) :
    o.k ≤ (MarkovChain.trialStep g msteps o).k :=
  MarkovChain.msteps_run_k_mono g o.mc.maxgen o.mc.maxlen
    (List.range msteps) (RunSt.mk o.mc.braid o.k o.trace, [])

/-- The draw counter never decreases across iterated trials. -/
theorem MarkovChain.iterate_trials_k_mono (g : Nat → Nat) (msteps : Nat) :
    ∀ (n : Nat) (o : ModelOut),
      o.k ≤ ((MarkovChain.trialStep g msteps)^[n] o).k := by
  intro n
  induction n with
  | zero => intro o; exact le_refl _
  | succ n ih =>
    intro o
    rw [Function.iterate_succ_apply]
    exact le_trans (MarkovChain.trialStep_k_mono g msteps o) (ih _)

/-- Stream agreement on the consumed window extends through one trial. -/
theorem MarkovChain.trialStep_agree (g1 g2 : Nat → Nat) (msteps : Nat)
    (o : ModelOut)
    (h : ∀ i, o.k ≤ i → i < (MarkovChain.trialStep g1 msteps o).k →
      g1 i = g2 i) :
    MarkovChain.trialStep g1 msteps o = MarkovChain.trialStep g2 msteps o := by
  have hrun : MarkovChain.msteps_run g1 o.mc.maxgen o.mc.maxlen
      (List.range msteps) (RunSt.mk o.mc.braid o.k o.trace, []) =
      MarkovChain.msteps_run g2 o.mc.maxgen o.mc.maxlen
      (List.range msteps) (RunSt.mk o.mc.braid o.k o.trace, []) := by
    apply MarkovChain.msteps_run_agree
    intro i hi1 hi2
    exact h i hi1 hi2
  simp only [MarkovChain.trialStep, MarkovChain.mtrial]
  rw [hrun]

/-- Stream agreement on the consumed window extends through all trials. -/
theorem MarkovChain.iterate_trials_agree (g1 g2 : Nat → Nat) (msteps : Nat) :
    ∀ (n : Nat) (o : ModelOut),
      (∀ i, o.k ≤ i → i < ((MarkovChain.trialStep g1 msteps)^[n] o).k →
        g1 i = g2 i) →
      (MarkovChain.trialStep g1 msteps)^[n] o =
        (MarkovChain.trialStep g2 msteps)^[n] o := by
  intro n
  induction n with
  | zero => intro o h; rfl
  | succ n ih =>
    intro o h
    have hmono := MarkovChain.iterate_trials_k_mono g1 msteps n
      (MarkovChain.trialStep g1 msteps o)
    have hlb := MarkovChain.trialStep_k_mono g1 msteps o
    have hfull : ((MarkovChain.trialStep g1 msteps)^[n + 1] o).k =
        ((MarkovChain.trialStep g1 msteps)^[n]
          (MarkovChain.trialStep g1 msteps o)).k := by
      rw [Function.iterate_succ_apply]
    have hstep : MarkovChain.trialStep g1 msteps o =
        MarkovChain.trialStep g2 msteps o := by
      apply MarkovChain.trialStep_agree
      intro i hi1 hi2
      exact h i hi1 (by rw [hfull]; omega)
    rw [Function.iterate_succ_apply, Function.iterate_succ_apply, ← hstep]
    apply ih
    intro i hi1 hi2
    apply h i (le_trans hlb hi1)
    rw [hfull]
    exact hi2

/-- Claim C10: two runs of `model` with identical initial word, bounds and
arguments, whose externally fixed random streams agree on the draws the
run actually consumes (all counter positions below the final counter),
make the identical sequence of move-type, index, and per-move parameter
draws (the `trace`) and end with identical braidrep snapshots, logs, and
working word.  In particular two runs with the very same seeded stream
coincide. -/
theorem model_deterministic (g1 g2 : Nat → Nat) (mc : MarkovChain)
    (N M : Nat)
    (h : ∀ i, i < (MarkovChain.model g1 mc N M).k → g1 i = g2 i) :
    MarkovChain.model g1 mc N M = MarkovChain.model g2 mc N M := by
  rw [MarkovChain.model_eq, MarkovChain.model_eq]
  apply MarkovChain.iterate_trials_agree
  intro i hi1 hi2
  apply h
  rw [MarkovChain.model_eq]
  exact hi2

/-- Witness for C10: two syntactically different streams that agree on
the two consumed draws produce identical runs. -/
theorem model_deterministic_witness :
    (∀ i, i < (MarkovChain.model (fun i2 => i2)
        (MarkovChain.mk [1] 9 10 [] []) 1 1).k →
      (fun i2 => i2) i = (fun i2 => if i2 < 2 then i2 else 7) i) ∧
    MarkovChain.model (fun i2 => i2) (MarkovChain.mk [1] 9 10 [] []) 1 1 =
      MarkovChain.model (fun i2 => if i2 < 2 then i2 else 7)
        (MarkovChain.mk [1] 9 10 [] []) 1 1 :=
  ⟨by decide,
    model_deterministic (fun i2 => i2) (fun i2 => if i2 < 2 then i2 else 7)
      (MarkovChain.mk [1] 9 10 [] []) 1 1 (by decide)⟩

/-- Reading an existing cell is unaffected by appended allocations. -/
theorem readH_append_left {α : Type} (d : α) (h t : List α) (b : Nat)
    (hb : b < h.length) : readH d (h ++ t) b = readH d h b := by
  simp only [readH, List.getD_eq_getElem?_getD, List.getElem?_append_left hb]

/-- Reading a cell is unaffected by a write to a different cell. -/
theorem readH_set_ne {α : Type} (d : α) (h : List α) (a b : Nat) (v : α)
    (hne : a ≠ b) : readH d (writeH h a v) b = readH d h b := by
  simp only [readH, writeH, List.getD_eq_getElem?_getD,
    List.getElem?_set_ne hne]

/-- Every member of `List.range' s n` is at least `s`. -/
theorem range'_le {s n m : Nat} (h : m ∈ List.range' s n) : s ≤ m := by
  have := List.mem_range'_1.mp h
  omega

/-- Reading the freshly appended cells, in order, recovers exactly the
appended values. -/
theorem readH_copies {α : Type} (d : α) :
    ∀ (xs pre : List α),
      (List.range' pre.length xs.length).map (readH d (pre ++ xs)) = xs := by
  intro xs
  induction xs with
  | nil => intro pre; rfl
  | cons x xs ih =>
    intro pre
    rw [List.length_cons, List.range'_succ, List.map_cons]
    have hhead : readH d (pre ++ x :: xs) pre.length = x := by
      simp only [readH, List.getD_eq_getElem?_getD]
      rw [List.getElem?_append_right (le_refl pre.length)]
      simp
    have htail : (List.range' (pre.length + 1) xs.length).map
        (readH d (pre ++ x :: xs)) = xs := by
      have hre : pre ++ x :: xs = (pre ++ [x]) ++ xs := by simp
      have hlen : pre.length + 1 = (pre ++ [x]).length := by simp
      rw [hre, hlen]
      exact ih (pre ++ [x])
    rw [hhead, htail]

/-- The deep copy reads back, through its fresh addresses, exactly the
contents the source addresses held. -/
theorem deepcopyAll_contents {α : Type} (d : α) (h : List α)
    (as : List Nat) :
    ((deepcopyAll d h as).2).map (readH d (deepcopyAll d h as).1) =
      as.map (readH d h) := by
  have hc := readH_copies d (as.map (readH d h)) h
  simpa [deepcopyAll] using hc

/-- Every address returned by the deep copy is fresh: it lies beyond the
cells that existed before the copy. -/
theorem deepcopyAll_fresh {α : Type} (d : α) (h : List α) (as : List Nat)
    (a : Nat) (ha : a ∈ (deepcopyAll d h as).2) : h.length ≤ a :=
  range'_le ha

/-- Writing through any fresh address leaves every read through the old
addresses unchanged. -/
theorem map_readH_write_fresh {α : Type} (d : α) (h t : List α)
    (bs : List Nat) (hWF : ∀ b ∈ bs, b < h.length) (a : Nat)
    (ha : h.length ≤ a) (v : α) :
    bs.map (readH d (writeH (h ++ t) a v)) = bs.map (readH d h) := by
  apply List.map_congr_left
  intro b hb
  have hblt : b < h.length := hWF b hb
  rw [readH_set_ne d (h ++ t) a b v (by omega)]
  exact readH_append_left d h t b hblt

/-- Claim C1, counterexample: `braidreps()` copies only the outer list
(`.copy()`), so the returned entries alias the engine's stored snapshots.
With one stored snapshot `[1, 2, 3]`, mutating the snapshot returned by
`braidreps()` (writing `[7]` through its cell, address 0 of the returned
list) changes the contents a subsequent `braidreps()` call returns. -/
theorem braidreps_shallow_copy_cx :
    (MarkovChain.braidrepsAcc (MCRefs.mk [0] []) false).map
        (readH [] (writeH [[1, 2, 3]]
          ((MarkovChain.braidrepsAcc (MCRefs.mk [0] []) false).getD 0 0)
          [7])) ≠
      (MarkovChain.braidrepsAcc (MCRefs.mk [0] []) false).map
        (readH [] [[1, 2, 3]]) := by
  decide

/-- Claim C1, amended: `aggregate()` and `logs()` each return an
independently owned deep copy - the returned copies read back the
internal contents, and mutating any cell reachable from the returned
structure leaves the contents of a subsequent call to the same accessor
(the engine's view) unchanged; `braidreps()` however returns a fresh
outer list whose entries are the engine's own snapshot cells (equally for
`as_word=True` and `as_word=False`), so only the outer list, not the
snapshots inside it, is independently owned. -/
theorem accessors_copy_semantics (hw : List (List Int)) (hd : List Dict)
    (s : MCRefs) (hWF : s.WF hw hd) :
    ((MarkovChain.aggregateAcc hw hd s).2.1.map
        (readH [] (MarkovChain.aggregateAcc hw hd s).1.1) =
          braidrepsView hw s ∧
      (MarkovChain.aggregateAcc hw hd s).2.2.map
        (readH [] (MarkovChain.aggregateAcc hw hd s).1.2) =
          logsView hd s) ∧
    (∀ a ∈ (MarkovChain.aggregateAcc hw hd s).2.1, ∀ v,
      braidrepsView (writeH (MarkovChain.aggregateAcc hw hd s).1.1 a v) s =
        braidrepsView hw s) ∧
    (∀ a ∈ (MarkovChain.aggregateAcc hw hd s).2.2, ∀ v,
      logsView (writeH (MarkovChain.aggregateAcc hw hd s).1.2 a v) s =
        logsView hd s) ∧
    (∀ a ∈ (MarkovChain.logsAcc hd s).2, ∀ v,
      logsView (writeH (MarkovChain.logsAcc hd s).1 a v) s =
        logsView hd s) ∧
    (∀ b : Bool, MarkovChain.braidrepsAcc s b = s.braidreps) := by
  obtain ⟨hWF1, hWF2⟩ := hWF
  refine ⟨⟨?_, ?_⟩, ?_, ?_, ?_, fun b => rfl⟩
  · exact deepcopyAll_contents [] hw s.braidreps
  · exact deepcopyAll_contents [] hd s.logs
  · intro a ha v
    exact map_readH_write_fresh [] hw _ s.braidreps hWF1 a
      (deepcopyAll_fresh [] hw s.braidreps a ha) v
  · intro a ha v
    exact map_readH_write_fresh [] hd _ s.logs hWF2 a
      (deepcopyAll_fresh [] hd s.logs a ha) v
  · intro a ha v
    exact map_readH_write_fresh [] hd _ s.logs hWF2 a
      (deepcopyAll_fresh [] hd s.logs a ha) v

/-- Witness for the amended C1: one stored snapshot and one stored log. -/
theorem accessors_copy_semantics_witness :
    (MCRefs.mk [0] [0]).WF [[1]] [[(0, "m")]] ∧
    (∀ a ∈ (MarkovChain.aggregateAcc [[1]] [[(0, "m")]]
        (MCRefs.mk [0] [0])).2.1, ∀ v,
      braidrepsView (writeH (MarkovChain.aggregateAcc [[1]] [[(0, "m")]]
          (MCRefs.mk [0] [0])).1.1 a v) (MCRefs.mk [0] [0]) =
        braidrepsView [[1]] (MCRefs.mk [0] [0])) ∧
    (∀ b : Bool, MarkovChain.braidrepsAcc (MCRefs.mk [0] [0]) b =
      (MCRefs.mk [0] [0]).braidreps) :=
  ⟨⟨by decide, by decide⟩,
    (accessors_copy_semantics [[1]] [[(0, "m")]] (MCRefs.mk [0] [0])
      ⟨by decide, by decide⟩).2.1,
    (accessors_copy_semantics [[1]] [[(0, "m")]] (MCRefs.mk [0] [0])
      ⟨by decide, by decide⟩).2.2.2.2⟩
